import Mathlib

/-!
Verification of `pareto_chart.py`: a shallow embedding of the sampler
(`generate_synthetic_data`, built on `random.choices`), the aggregator
(`group_data`) and the cumulative-percentage computation of the renderer
(`pareto_chart`), together with proofs of the specified properties.

Modelling conventions:
* Python numbers (ints and the floats produced by `/`) are modelled as `ℚ`;
  the counts produced by `group_data` are `ℕ`.
* A raised Python exception is modelled as `Except.error` carrying the kind
  of exception (`ZeroDivisionError`, `IndexError`, `ValueError`).
* The process-wide random source consumed by `random.random()` is modelled
  as an explicit stream `rand : ℕ → ℚ`, draw `i` reading `rand i`.
* The iteration order of the Python set in `list(set(data))` is
  unspecified; `group_data_with` takes that order as an explicit parameter
  and `group_data` instantiates it with first-occurrence order.
-/

namespace ParetoChart

/-- The kind of Python exception raised, when the modelled code raises. -/
inductive PyError : Type where
  | zeroDivisionError : PyError
  | indexError : PyError
  | valueError : PyError
deriving DecidableEq, Repr

/-- CPython `bisect.bisect_right(a, x, lo, hi)`: binary search used by
`random.choices`.  `while lo < hi: mid = (lo+hi)//2; if x < a[mid]: hi = mid
else: lo = mid+1; return lo`. -/
def bisect_right (a : List ℚ) (x : ℚ) (lo hi : Nat) : Nat :=
  if _h : lo < hi then
    let mid := (lo + hi) / 2
    if x < a.getD mid 0 then bisect_right a x lo mid
    else bisect_right a x (mid + 1) hi
  else lo
termination_by hi - lo
decreasing_by
  · omega
  · omega

/-- `itertools.accumulate` with a running total that starts at `acc`:
each element of the input is added to the running total and the total is
emitted. -/
def accumulateFrom (acc : ℚ) : List ℚ → List ℚ
  | [] => []
  | x :: xs => (acc + x) :: accumulateFrom (acc + x) xs

/-- `list(itertools.accumulate(weights))`: the list of running partial sums. -/
def accumulate (l : List ℚ) : List ℚ :=
  accumulateFrom 0 l

/-- Model of CPython `random.choices(population, weights, k=k)` with the
random stream explicit.  Mirrors the CPython source: build the cumulative
weights, raise `ValueError` if their number does not match the population,
read `cum_weights[-1]` as the total (an `IndexError` on an empty list),
raise `ValueError` if the total is not positive, and otherwise return
`[population[bisect(cum_weights, random() * total, 0, n - 1)] for _ in range(k)]`. -/
def choices (population : List String) (weights : List ℚ) (k : Nat)
    (rand : Nat → ℚ) : Except PyError (List String) :=
  let n := population.length
  let cum_weights := accumulate weights
  if cum_weights.length ≠ n then .error .valueError
  else if cum_weights.isEmpty then .error .indexError
  else
    let total := cum_weights.getLastD 0
    if total ≤ 0 then .error .valueError
    else .ok ((List.range k).map fun i =>
      population.getD (bisect_right cum_weights (rand i * total) 0 (n - 1)) "")

/-- `generate_synthetic_data(categories, num_samples)` from
`pareto_chart.py`.  Sums the weights, normalizes each weight by the total
(a `ZeroDivisionError` as soon as one division by a zero total is executed,
hence only when the list is non-empty), splits names from probabilities and
calls `random.choices`. -/
def generate_synthetic_data (categories : List (String × ℚ)) (num_samples : Nat)
    (rand : Nat → ℚ) : Except PyError (List String) :=
  let total_frequency := (categories.map fun c => c.2).sum
  if total_frequency = 0 ∧ categories ≠ [] then .error .zeroDivisionError
  else
    let categories_distribution := categories.map fun c => (c.1, c.2 / total_frequency)
    let category_names := categories_distribution.map fun c => c.1
    let category_probability := categories_distribution.map fun c => c.2
    choices category_names category_probability num_samples rand

/-- Python `sorted(l, key=lambda x: x[1], reverse=reverse)` on
(name, count) pairs.  Python's sort is a stable sort by the key, in
descending key order when `reverse` is true; a stable merge sort with the
corresponding boolean comparison on the keys realizes exactly that. -/
def sortByCount (reverse : Bool) (l : List (String × Nat)) : List (String × Nat) :=
  if reverse then l.mergeSort fun a b => decide (b.2 ≤ a.2)
  else l.mergeSort fun a b => decide (a.2 ≤ b.2)

/-- `group_data(data, reverse)` with the iteration order of
`list(set(data))` given explicitly as `set_order` (Python's set iteration
order is unspecified; any enumeration of the distinct elements may occur). -/
def group_data_with (set_order : List String) (data : List String)
    (reverse : Bool) : List (String × Nat) :=
  sortByCount reverse (set_order.map fun category => (category, data.count category))

/-- `group_data(data, reverse=True)` from `pareto_chart.py`:
`sorted([(c, data.count(c)) for c in list(set(data))], key=lambda x: x[1],
reverse=reverse)`, with the set iteration order instantiated to
first-occurrence order (`dedup`). -/
def group_data (data : List String) (reverse : Bool) : List (String × Nat) :=
  group_data_with data.dedup data reverse

/-- The renderer's cumulative-sum loop from `pareto_chart`:
`cumsum.append(count)` for the first element, then
`cumsum.append(count + cumsum[-1])`; `last` is `cumsum[-1]`. -/
def cumsumFrom (last : ℚ) : List ℚ → List ℚ
  | [] => []
  | count :: rest => (count + last) :: cumsumFrom (count + last) rest

/-- The full cumulative-sum list built by the renderer's loop. -/
def cumsum (counts : List ℚ) : List ℚ :=
  match counts with
  | [] => []
  | count :: rest => count :: cumsumFrom count rest

/-- The cumulative-percentage computation of `pareto_chart(data)`:
`total = sum(counts)`, then `percent_cumsum = [c / total * 100 for c in
cumsum]`.  The comprehension raises `ZeroDivisionError` if and only if it
evaluates at least one division with `total == 0`. -/
def percent_cumsum (data : List (String × ℚ)) : Except PyError (List ℚ) :=
  let counts := data.map fun c => c.2
  let total := counts.sum
  if total = 0 ∧ cumsum counts ≠ [] then .error .zeroDivisionError
  else .ok ((cumsum counts).map fun c => c / total * 100)

/-- Modelled from the spec (section 4.3): the closed-form cumulative
percentage, "running sum of counts up to and including the i-th category
(in display order), divided by the total of all counts, times 100". -/
def cumulative_percentage_spec (counts : List ℚ) : List ℚ :=
  (List.range counts.length).map fun i => (counts.take (i + 1)).sum / counts.sum * 100

/-! ### Helper lemmas about the embedded functions -/

theorem accumulateFrom_length (acc : ℚ) (l : List ℚ) :
    (accumulateFrom acc l).length = l.length := by
  induction l generalizing acc with
  | nil => rfl
  | cons x xs ih => simp [accumulateFrom, ih]

theorem accumulate_length (l : List ℚ) : (accumulate l).length = l.length :=
  accumulateFrom_length 0 l

theorem accumulateFrom_getLastD (l : List ℚ) :
    ∀ acc d : ℚ, l ≠ [] → (accumulateFrom acc l).getLastD d = acc + l.sum := by
  induction l with
  | nil => intro acc d h; exact absurd rfl h
  | cons x xs ih =>
    intro acc d _
    cases xs with
    | nil => simp [accumulateFrom]
    | cons y ys =>
      rw [accumulateFrom, List.getLastD_cons, ih _ _ (by simp)]
      simp only [List.sum_cons]
      ring

theorem accumulate_getLastD (l : List ℚ) (h : l ≠ []) :
    (accumulate l).getLastD 0 = l.sum := by
  rw [accumulate, accumulateFrom_getLastD l 0 0 h, zero_add]

theorem cumsumFrom_getLast? (l : List ℚ) :
    ∀ acc : ℚ, l ≠ [] → (cumsumFrom acc l).getLast? = some (acc + l.sum) := by
  induction l with
  | nil => intro acc h; exact absurd rfl h
  | cons x xs ih =>
    intro acc _
    cases xs with
    | nil =>
      show ([x + acc] : List ℚ).getLast? = some (acc + [x].sum)
      simp only [List.getLast?_singleton, List.sum_cons, List.sum_nil, Option.some.injEq]
      ring
    | cons y ys =>
      have h2 : cumsumFrom acc (x :: y :: ys) =
          (x + acc) :: (y + (x + acc)) :: cumsumFrom (y + (x + acc)) ys := rfl
      have h5 : cumsumFrom (x + acc) (y :: ys) =
          (y + (x + acc)) :: cumsumFrom (y + (x + acc)) ys := rfl
      rw [h2, List.getLast?_cons_cons, ← h5, ih (x + acc) (by simp)]
      simp only [List.sum_cons, Option.some.injEq]
      ring

theorem cumsum_getLast? (l : List ℚ) (h : l ≠ []) :
    (cumsum l).getLast? = some l.sum := by
  cases l with
  | nil => exact absurd rfl h
  | cons x xs =>
    cases xs with
    | nil =>
      show ([x] : List ℚ).getLast? = some (x :: ([] : List ℚ)).sum
      simp
    | cons y ys =>
      have h2 : cumsum (x :: y :: ys) = x :: cumsumFrom x (y :: ys) := rfl
      have h5 : cumsumFrom x (y :: ys) =
          (y + x) :: cumsumFrom (y + x) ys := rfl
      rw [h2, h5, List.getLast?_cons_cons, ← h5, cumsumFrom_getLast? _ x (by simp)]
      simp only [List.sum_cons]

theorem sum_map_div (l : List ℚ) (t : ℚ) :
    (l.map fun x => x / t).sum = l.sum / t := by
  induction l with
  | nil => simp
  | cons x xs ih => simp [ih, add_div]

/-- `bisect_right` never returns an index above `hi`. -/
theorem bisect_right_le (a : List ℚ) (x : ℚ) :
    ∀ (n lo hi : Nat), hi - lo ≤ n → lo ≤ hi → bisect_right a x lo hi ≤ hi := by
  intro n
  induction n with
  | zero =>
    intro lo hi h1 h2
    rw [bisect_right]
    have hnot : ¬ lo < hi := by omega
    simp [hnot]
    omega
  | succ n ih =>
    intro lo hi h1 h2
    rw [bisect_right]
    by_cases hlt : lo < hi
    · simp only [hlt, dite_true]
      by_cases hx : x < a.getD ((lo + hi) / 2) 0
      · simp only [hx, if_true]
        exact le_trans (ih lo ((lo + hi) / 2) (by omega) (by omega)) (by omega)
      · simp only [hx, if_false]
        exact ih ((lo + hi) / 2 + 1) hi (by omega) (by omega)
    · simp [hlt]
      omega

/-- The cumulative-sum loop computes the running sums in closed form. -/
theorem cumsumFrom_eq (l : List ℚ) :
    ∀ acc : ℚ, cumsumFrom acc l =
      (List.range l.length).map fun i => acc + (l.take (i + 1)).sum := by
  induction l with
  | nil => intro acc; rfl
  | cons x xs ih =>
    intro acc
    rw [cumsumFrom, ih (x + acc)]
    rw [List.length_cons, List.range_succ_eq_map, List.map_cons, List.map_map]
    congr 1
    · simp only [List.take_succ_cons, List.take_zero, List.sum_cons, List.sum_nil]
      ring
    · apply List.map_congr_left
      intro i _
      simp only [Function.comp_apply, List.take_succ_cons, List.sum_cons]
      ring

theorem cumsum_eq (l : List ℚ) :
    cumsum l = (List.range l.length).map fun i => (l.take (i + 1)).sum := by
  cases l with
  | nil => rfl
  | cons x xs =>
    have h2 : cumsum (x :: xs) = x :: cumsumFrom x xs := rfl
    rw [h2, cumsumFrom_eq xs x]
    simp [List.range_succ_eq_map, List.map_map, Function.comp_def]

theorem accumulate_ne_nil (l : List ℚ) (h : l ≠ []) : accumulate l ≠ [] := by
  intro hc
  apply h
  have hl := accumulate_length l
  rw [hc] at hl
  exact List.length_eq_zero.mp hl.symm

/-- When the cumulative weights match the population, the population is
non-empty and the weights have positive sum, `choices` succeeds and returns
`k` draws, each an element of the population. -/
theorem choices_spec (population : List String) (weights : List ℚ) (k : Nat)
    (rand : Nat → ℚ) (hlen : weights.length = population.length)
    (hne : population ≠ []) (hpos : 0 < weights.sum) :
    ∃ out, choices population weights k rand = .ok out ∧
      out.length = k ∧ ∀ s ∈ out, s ∈ population := by
  have hwne : weights ≠ [] := by
    intro h
    subst h
    exact hne (List.length_eq_zero.mp hlen.symm)
  have hcl : (accumulate weights).length = population.length := by
    rw [accumulate_length]; exact hlen
  have hane : accumulate weights ≠ [] := accumulate_ne_nil weights hwne
  have htot : (accumulate weights).getLastD 0 = weights.sum := accumulate_getLastD _ hwne
  have heq : choices population weights k rand = .ok ((List.range k).map fun i =>
      population.getD (bisect_right (accumulate weights)
        (rand i * (accumulate weights).getLastD 0) 0 (population.length - 1)) "") := by
    simp only [choices]
    rw [if_neg (by simp [hcl]), if_neg (by simp [List.isEmpty_iff, hane]),
      if_neg (by rw [htot]; exact not_le.mpr hpos)]
  refine ⟨_, heq, by simp, ?_⟩
  intro s hs
  simp only [List.mem_map] at hs
  obtain ⟨i, _, rfl⟩ := hs
  have hn : 0 < population.length := List.length_pos.mpr hne
  have hb : bisect_right (accumulate weights) (rand i * (accumulate weights).getLastD 0)
      0 (population.length - 1) ≤ population.length - 1 :=
    bisect_right_le _ _ (population.length - 1) 0 (population.length - 1) (by omega) (by omega)
  have hlt : bisect_right (accumulate weights) (rand i * (accumulate weights).getLastD 0)
      0 (population.length - 1) < population.length := by omega
  rw [List.getD_eq_getElem _ _ hlt]
  exact List.getElem_mem hlt

/-- Whenever the weights of the categories have a non-zero sum, the sampler
succeeds and returns `N` names, each a name of a category. -/
theorem generate_spec (categories : List (String × ℚ)) (N : Nat) (rand : Nat → ℚ)
    (htot : (categories.map fun c => c.2).sum ≠ 0) :
    ∃ out, generate_synthetic_data categories N rand = .ok out ∧
      out.length = N ∧ ∀ s ∈ out, s ∈ categories.map fun c => c.1 := by
  have hne : categories ≠ [] := by
    intro h
    subst h
    simp at htot
  simp only [generate_synthetic_data]
  rw [if_neg (by simp [htot])]
  have hsum : ((categories.map fun c => (c.1, c.2 / (categories.map fun c => c.2).sum)).map
      fun c => c.2).sum = 1 := by
    rw [List.map_map]
    have h1 : ((fun c : String × ℚ => c.2) ∘
        fun c : String × ℚ => (c.1, c.2 / (categories.map fun c => c.2).sum)) =
        (fun x : ℚ => x / (categories.map fun c => c.2).sum) ∘ fun c : String × ℚ => c.2 := rfl
    rw [h1, ← List.map_map, sum_map_div]
    exact div_self htot
  obtain ⟨out, h1, h2, h3⟩ := choices_spec
    ((categories.map fun c => (c.1, c.2 / (categories.map fun c => c.2).sum)).map fun c => c.1)
    ((categories.map fun c => (c.1, c.2 / (categories.map fun c => c.2).sum)).map fun c => c.2)
    N rand (by simp) (by simp [hne]) (by rw [hsum]; norm_num)
  refine ⟨out, h1, h2, fun s hs => ?_⟩
  have := h3 s hs
  simpa [List.map_map] using this

/-- A non-empty category list whose weights sum to zero makes the sampler
raise `ZeroDivisionError` while normalizing, before any draw. -/
theorem generate_zero_sum (categories : List (String × ℚ)) (N : Nat) (rand : Nat → ℚ)
    (hne : categories ≠ []) (hzero : (categories.map fun c => c.2).sum = 0) :
    generate_synthetic_data categories N rand = .error .zeroDivisionError := by
  simp only [generate_synthetic_data]
  rw [if_pos ⟨hzero, hne⟩]

/-- An empty category list makes the sampler raise `IndexError` inside
`random.choices` (reading `cum_weights[-1]` of an empty list), before any
draw. -/
theorem generate_nil (N : Nat) (rand : Nat → ℚ) :
    generate_synthetic_data [] N rand = .error .indexError := by
  simp [generate_synthetic_data, choices, accumulate, accumulateFrom]

/-- Python's `sorted` permutes its input. -/
theorem sortByCount_perm (reverse : Bool) (l : List (String × Nat)) :
    List.Perm (sortByCount reverse l) l := by
  cases reverse <;> simp only [sortByCount, if_true, if_false, Bool.false_eq_true] <;>
    exact List.mergeSort_perm l _

/-- Descending sort: every later count is at most every earlier count. -/
theorem sortByCount_sorted_desc (l : List (String × Nat)) :
    (sortByCount true l).Pairwise fun a b => b.2 ≤ a.2 := by
  simp only [sortByCount, if_true]
  refine List.Pairwise.imp ?_ (List.sorted_mergeSort ?_ ?_ l)
  · exact fun hab => of_decide_eq_true hab
  · intro a b c hab hbc
    have h1 := of_decide_eq_true hab
    have h2 := of_decide_eq_true hbc
    exact decide_eq_true (le_trans h2 h1)
  · intro a b
    simp only [Bool.or_eq_true, decide_eq_true_eq]
    omega

/-- Ascending sort: every earlier count is at most every later count. -/
theorem sortByCount_sorted_asc (l : List (String × Nat)) :
    (sortByCount false l).Pairwise fun a b => a.2 ≤ b.2 := by
  simp only [sortByCount, if_false, Bool.false_eq_true]
  refine List.Pairwise.imp ?_ (List.sorted_mergeSort ?_ ?_ l)
  · exact fun hab => of_decide_eq_true hab
  · intro a b c hab hbc
    have h1 := of_decide_eq_true hab
    have h2 := of_decide_eq_true hbc
    exact decide_eq_true (le_trans h1 h2)
  · intro a b
    simp only [Bool.or_eq_true, decide_eq_true_eq]
    omega

theorem group_data_with_perm (set_order : List String) (data : List String)
    (reverse : Bool) :
    List.Perm (group_data_with set_order data reverse)
      (set_order.map fun category => (category, data.count category)) :=
  sortByCount_perm reverse _

theorem group_data_perm (data : List String) (reverse : Bool) :
    List.Perm (group_data data reverse)
      (data.dedup.map fun category => (category, data.count category)) :=
  group_data_with_perm data.dedup data reverse

/-! ### Claims -/

/-- Claim C1: for every sequence of category names (including the empty
sequence) and either sort direction, the aggregator's output counts sum to
the length of the input, and the names of the output are exactly the
distinct names occurring in the input, each appearing exactly once. -/
theorem c1_aggregator_counts_and_names (data : List String) (reverse : Bool) :
    ((group_data data reverse).map fun p => p.2).sum = data.length ∧
    List.Perm ((group_data data reverse).map fun p => p.1) data.dedup ∧
    ((group_data data reverse).map fun p => p.1).Nodup := by
  have hperm := group_data_perm data reverse
  have hfst : List.Perm ((group_data data reverse).map fun p => p.1) data.dedup := by
    have h1 := hperm.map fun p : String × Nat => p.1
    simpa [List.map_map, Function.comp_def] using h1
  refine ⟨?_, hfst, hfst.nodup_iff.mpr data.nodup_dedup⟩
  have h2 := (hperm.map fun p : String × Nat => p.2).sum_eq
  rw [h2, List.map_map]
  have h3 : ((fun p : String × Nat => p.2) ∘ fun category => (category, data.count category)) =
      fun category => data.count category := rfl
  rw [h3]
  exact List.sum_map_count_dedup_eq_length data

/-- Claim C2: for weight sets with positive weights (hence a non-zero total
weight) and any sample count `N`, the sampler returns a list of exactly `N`
names, each of which is a name present in the weight set. -/
theorem c2_sampler_length_and_membership (categories : List (String × ℚ)) (N : Nat)
    (rand : Nat → ℚ) (_hpos : ∀ p ∈ categories, 0 < p.2)
    (htot : (categories.map fun c => c.2).sum ≠ 0) :
    ∃ out, generate_synthetic_data categories N rand = .ok out ∧
      out.length = N ∧ ∀ s ∈ out, s ∈ categories.map fun c => c.1 :=
  generate_spec categories N rand htot

/-- Witness for C2 at the spec's concrete scenario. -/
theorem c2_sampler_length_and_membership_witness :
    ∃ out, generate_synthetic_data [("A", 1), ("B", 5), ("C", 10)] 2 (fun _ => 0) = .ok out ∧
      out.length = 2 ∧ ∀ s ∈ out, s ∈ ["A", "B", "C"] := by
  have h := c2_sampler_length_and_membership [("A", 1), ("B", 5), ("C", 10)] 2 (fun _ => 0)
    (by intro p hp
        simp only [List.mem_cons, List.not_mem_nil, or_false] at hp
        rcases hp with rfl | rfl | rfl <;> norm_num)
    (by norm_num)
  simpa using h

/-- Claim C3: the aggregator's output is sorted by count - adjacent counts
are non-increasing in descending mode (`reverse = true`, the default) and
non-decreasing in ascending mode (`reverse = false`). -/
theorem c3_aggregator_sorted (data : List String) (i : Nat) :
    (i + 1 < (group_data data true).length →
      ((group_data data true).getD (i + 1) ("", 0)).2 ≤
        ((group_data data true).getD i ("", 0)).2) ∧
    (i + 1 < (group_data data false).length →
      ((group_data data false).getD i ("", 0)).2 ≤
        ((group_data data false).getD (i + 1) ("", 0)).2) := by
  constructor
  · intro h
    have hp := sortByCount_sorted_desc
      (data.dedup.map fun category => (category, data.count category))
    have hlen : i + 1 < (sortByCount true
        (data.dedup.map fun category => (category, data.count category))).length := h
    rw [List.getD_eq_getElem _ _ h, List.getD_eq_getElem _ _ (by omega)]
    exact List.pairwise_iff_getElem.mp hp i (i + 1) (by omega) hlen (by omega)
  · intro h
    have hp := sortByCount_sorted_asc
      (data.dedup.map fun category => (category, data.count category))
    have hlen : i + 1 < (sortByCount false
        (data.dedup.map fun category => (category, data.count category))).length := h
    rw [List.getD_eq_getElem _ _ h, List.getD_eq_getElem _ _ (by omega)]
    exact List.pairwise_iff_getElem.mp hp i (i + 1) (by omega) hlen (by omega)

/-- Witness for C3 at a concrete input with two distinct counts. -/
theorem c3_aggregator_sorted_witness :
    ((group_data ["a", "b", "b"] true).getD 1 ("", 0)).2 ≤
      ((group_data ["a", "b", "b"] true).getD 0 ("", 0)).2 ∧
    ((group_data ["a", "b", "b"] false).getD 0 ("", 0)).2 ≤
      ((group_data ["a", "b", "b"] false).getD 1 ("", 0)).2 :=
  ⟨(c3_aggregator_sorted ["a", "b", "b"] 0).1
      (by simp only [group_data, group_data_with, sortByCount, if_true,
            List.length_mergeSort, List.length_map]
          decide),
   (c3_aggregator_sorted ["a", "b", "b"] 0).2
      (by simp only [group_data, group_data_with, sortByCount, Bool.false_eq_true, if_false,
            List.length_mergeSort, List.length_map]
          decide)⟩

/-- Claim C9: every count in the aggregator's output is at least 1, since
an entry is produced only for names that occur in the input. -/
theorem c9_aggregator_counts_pos (data : List String) (reverse : Bool) :
    ∀ p ∈ group_data data reverse, 1 ≤ p.2 := by
  intro p hp
  have hp2 := (group_data_perm data reverse).mem_iff.mp hp
  simp only [List.mem_map] at hp2
  obtain ⟨c, hc, rfl⟩ := hp2
  exact List.one_le_count_iff.mpr (List.mem_dedup.mp hc)

/-- Witness for C9: the entry ("b", 2) of a concrete aggregation has a
positive count. -/
theorem c9_aggregator_counts_pos_witness : 1 ≤ (("b", 2) : String × Nat).2 :=
  c9_aggregator_counts_pos ["a", "b", "b"] true ("b", 2)
    (by simp only [group_data, group_data_with, sortByCount, if_true, List.mem_mergeSort]
        decide)

/-- Counterexample to C4 as stated: a weight set containing a negative
weight whose total is non-zero is not rejected - the sampler succeeds. -/
theorem c4_negative_weight_not_rejected :
    (generate_synthetic_data [("A", -1), ("B", 2)] 1 fun _ => 0).isOk = true := by
  obtain ⟨out, h1, _, _⟩ := generate_spec [("A", -1), ("B", 2)] 1 (fun _ => 0) (by norm_num)
  rw [h1]
  rfl

/-- Claim C4 (amended): the sampler raises an error immediately, before any
sampling, when the weight data is non-empty and its weights sum to zero (a
division-by-zero during normalization); a negative weight whose total is
non-zero is not rejected (see the counterexample). -/
theorem c4_sampler_rejects_zero_total (categories : List (String × ℚ)) (N : Nat)
    (rand : Nat → ℚ) (hne : categories ≠ [])
    (hzero : (categories.map fun c => c.2).sum = 0) :
    generate_synthetic_data categories N rand = .error .zeroDivisionError :=
  generate_zero_sum categories N rand hne hzero

/-- Witness for C4 (amended) at a concrete zero-weight input. -/
theorem c4_sampler_rejects_zero_total_witness :
    generate_synthetic_data [("A", 0)] 3 (fun _ => 0) = .error .zeroDivisionError :=
  c4_sampler_rejects_zero_total [("A", 0)] 3 (fun _ => 0) (by simp) (by norm_num)

/-- Counterexample to C5 as stated: a non-empty grouped-count sequence
whose counts sum to zero makes the renderer raise ZeroDivisionError, so no
final cumulative percentage (of 100 or anything else) is produced. -/
theorem c5_zero_total_raises :
    percent_cumsum [("A", 0)] = .error .zeroDivisionError := by
  simp [percent_cumsum, cumsum]

/-- Claim C5 (amended): for every non-empty grouped-count sequence whose
counts have a non-zero total, the final element of the cumulative-percentage
series equals exactly 100 (so in particular it is within any positive
floating-point tolerance such as 1e-9). -/
theorem c5_final_percent_is_100 (data : List (String × ℚ)) (hne : data ≠ [])
    (htot : (data.map fun c => c.2).sum ≠ 0) :
    ∃ pc, percent_cumsum data = .ok pc ∧ pc.getLast? = some 100 := by
  have hcne : data.map (fun c => c.2) ≠ [] := by simpa using hne
  have heq : percent_cumsum data = .ok ((cumsum (data.map fun c => c.2)).map
      fun c => c / (data.map fun c => c.2).sum * 100) := by
    simp only [percent_cumsum]
    rw [if_neg (by simp [htot])]
  refine ⟨_, heq, ?_⟩
  rw [List.getLast?_map, cumsum_getLast? _ hcne]
  simp [div_self htot]

/-- Witness for C5 (amended) at a concrete grouped-count sequence. -/
theorem c5_final_percent_is_100_witness :
    ∃ pc, percent_cumsum [("A", 2), ("B", 1)] = .ok pc ∧ pc.getLast? = some 100 :=
  c5_final_percent_is_100 [("A", 2), ("B", 1)] (by simp) (by norm_num)

/-- Claim C6: whenever the counts have a non-zero total, the renderer's
incrementally built cumulative-percentage series equals the spec's closed
form: element `i` is the sum of the first `i + 1` counts divided by the
total, times 100, in the caller-given display order. -/
theorem c6_percent_refines_spec (data : List (String × ℚ))
    (htot : (data.map fun c => c.2).sum ≠ 0) :
    percent_cumsum data = .ok (cumulative_percentage_spec (data.map fun c => c.2)) := by
  simp only [percent_cumsum]
  rw [if_neg (by simp [htot])]
  congr 1
  rw [cumsum_eq, List.map_map]
  simp only [cumulative_percentage_spec]
  apply List.map_congr_left
  intro i _
  simp [Function.comp_def]

/-- Witness for C6 at a concrete grouped-count sequence. -/
theorem c6_percent_refines_spec_witness :
    percent_cumsum [("A", 1), ("B", 3)] =
      .ok (cumulative_percentage_spec [1, 3]) := by
  have h := c6_percent_refines_spec [("A", 1), ("B", 3)] (by norm_num)
  simpa using h

/-- Claim C7: with positive total weight, sampling zero items returns the
empty sequence (not an error), and aggregating the empty sequence returns
the empty sequence in both sort modes. -/
theorem c7_boundary_empty (categories : List (String × ℚ)) (rand : Nat → ℚ)
    (hpos : 0 < (categories.map fun c => c.2).sum) :
    generate_synthetic_data categories 0 rand = .ok [] ∧
    group_data [] true = [] ∧ group_data [] false = [] := by
  refine ⟨?_, by simp [group_data, group_data_with, sortByCount],
    by simp [group_data, group_data_with, sortByCount]⟩
  obtain ⟨out, h1, h2, _⟩ := generate_spec categories 0 rand (ne_of_gt hpos)
  rw [List.length_eq_zero] at h2
  rw [h2] at h1
  exact h1

/-- Witness for C7 at a concrete weight set. -/
theorem c7_boundary_empty_witness :
    generate_synthetic_data [("A", 1)] 0 (fun _ => 0) = .ok [] ∧
    group_data [] true = [] ∧ group_data [] false = [] :=
  c7_boundary_empty [("A", 1)] (fun _ => 0) (by norm_num)

/-- Claim C8: aggregation of the same sequence is reproducible up to tie
order - for any two enumerations of the distinct names (any two possible
set iteration orders), the two outputs are permutations of each other (the
same multiset of (name, count) pairs) and have identical count sequences,
so their order can differ only among entries with equal counts. -/
theorem c8_aggregation_idempotent_up_to_ties (data : List String) (reverse : Bool)
    (ord1 ord2 : List String)
    (h1 : List.Perm ord1 data.dedup) (h2 : List.Perm ord2 data.dedup) :
    List.Perm (group_data_with ord1 data reverse) (group_data_with ord2 data reverse) ∧
    (group_data_with ord1 data reverse).map (fun p => p.2) =
      (group_data_with ord2 data reverse).map (fun p => p.2) := by
  have h12 : List.Perm ord1 ord2 := h1.trans h2.symm
  have hmap : List.Perm (ord1.map fun c => (c, data.count c))
      (ord2.map fun c => (c, data.count c)) := h12.map _
  have hperm : List.Perm (group_data_with ord1 data reverse)
      (group_data_with ord2 data reverse) :=
    (group_data_with_perm ord1 data reverse).trans
      (hmap.trans (group_data_with_perm ord2 data reverse).symm)
  refine ⟨hperm, ?_⟩
  have hsnd := hperm.map fun p : String × Nat => p.2
  cases reverse
  · have hs1 : ((group_data_with ord1 data false).map fun p : String × Nat => p.2).Pairwise
        (fun a b : Nat => a ≤ b) :=
      List.pairwise_map.mpr (sortByCount_sorted_asc (ord1.map fun c => (c, data.count c)))
    have hs2 : ((group_data_with ord2 data false).map fun p : String × Nat => p.2).Pairwise
        (fun a b : Nat => a ≤ b) :=
      List.pairwise_map.mpr (sortByCount_sorted_asc (ord2.map fun c => (c, data.count c)))
    haveI : IsAntisymm Nat fun a b : Nat => a ≤ b := ⟨fun a b hab hba => le_antisymm hab hba⟩
    exact List.eq_of_perm_of_sorted hsnd hs1 hs2
  · have hs1 : ((group_data_with ord1 data true).map fun p : String × Nat => p.2).Pairwise
        (fun a b : Nat => b ≤ a) :=
      List.pairwise_map.mpr (sortByCount_sorted_desc (ord1.map fun c => (c, data.count c)))
    have hs2 : ((group_data_with ord2 data true).map fun p : String × Nat => p.2).Pairwise
        (fun a b : Nat => b ≤ a) :=
      List.pairwise_map.mpr (sortByCount_sorted_desc (ord2.map fun c => (c, data.count c)))
    haveI : IsAntisymm Nat fun a b : Nat => b ≤ a := ⟨fun a b hab hba => le_antisymm hba hab⟩
    exact List.eq_of_perm_of_sorted hsnd hs1 hs2

/-- Witness for C8: two different set iteration orders over the same data
give the same multiset and the same count sequence. -/
theorem c8_aggregation_idempotent_up_to_ties_witness :
    List.Perm (group_data_with ["a", "b"] ["a", "b", "b"] true)
      (group_data_with ["b", "a"] ["a", "b", "b"] true) ∧
    (group_data_with ["a", "b"] ["a", "b", "b"] true).map (fun p => p.2) =
      (group_data_with ["b", "a"] ["a", "b", "b"] true).map (fun p => p.2) :=
  c8_aggregation_idempotent_up_to_ties ["a", "b", "b"] true ["a", "b"] ["b", "a"]
    (by have h : (["a", "b", "b"].dedup) = ["a", "b"] := by decide
        rw [h])
    (by have h : (["a", "b", "b"].dedup) = ["a", "b"] := by decide
        rw [h]
        exact List.Perm.swap "a" "b" [])

/-- Counterexample to C10 as stated: on the empty category list the failure
is an IndexError raised inside random.choices, not a division-by-zero
during weight normalization (no division is executed by an empty
normalization comprehension). -/
theorem c10_empty_list_is_index_error :
    generate_synthetic_data [] 0 (fun _ => 0) ≠ .error .zeroDivisionError := by
  rw [generate_nil]
  intro h
  injection h with h2
  exact PyError.noConfusion h2

/-- Claim C10 (amended): whenever the weights sum to zero the sampler fails
before any draw, for every requested count `N` including 0: with a
division-by-zero error during normalization when the category list is
non-empty, and with an index error inside `random.choices` when the
category list is empty. -/
theorem c10_zero_sum_fails_before_draw (categories : List (String × ℚ)) (N : Nat)
    (rand : Nat → ℚ) (hzero : (categories.map fun c => c.2).sum = 0) :
    (categories ≠ [] →
      generate_synthetic_data categories N rand = .error .zeroDivisionError) ∧
    (categories = [] →
      generate_synthetic_data categories N rand = .error .indexError) := by
  constructor
  · intro hne
    exact generate_zero_sum categories N rand hne hzero
  · intro h
    subst h
    exact generate_nil N rand

/-- Witness for C10 (amended) at both a concrete zero-weight list and the
empty list. -/
theorem c10_zero_sum_fails_before_draw_witness :
    generate_synthetic_data [("A", 0), ("B", 0)] 0 (fun _ => 0) = .error .zeroDivisionError ∧
    generate_synthetic_data [] 0 (fun _ => 0) = .error .indexError :=
  ⟨(c10_zero_sum_fails_before_draw [("A", 0), ("B", 0)] 0 (fun _ => 0) (by norm_num)).1
      (by simp),
   (c10_zero_sum_fails_before_draw [] 0 (fun _ => 0) (by simp)).2 rfl⟩

end ParetoChart
